import Mathlib

/-!
# Verification of the `pud` fleet-control system core

Shallow embedding of the `pud` repository (server router, worker scheduler,
calendar parser, framing/heartbeat) together with proofs settling the frozen
claims about its natural-language specification.

Maps (`BTreeMap`, `HashMap`) are modelled as association lists with
insert-or-replace semantics; lookups return the first matching key, which is
the unique one under the map invariant (no duplicate keys).
-/

namespace Pud

/-! ## Association-list model of `BTreeMap` / `HashMap` -/

/-- Lookup by key, first match (unique under the no-duplicate-keys invariant). -/
def lookupA {K V : Type} [DecidableEq K] : List (K × V) → K → Option V
  | [], _ => none
  | (k, v) :: rest, key => if k = key then some v else lookupA rest key

/-- Insert-or-replace semantics shared by `BTreeMap::insert`, `HashMap::insert`
and the `*map.entry(k).or_insert_with(..) = v` idiom: an existing binding for
the key is overwritten in place, otherwise the binding is added. -/
def insertA {K V : Type} [DecidableEq K] : List (K × V) → K → V → List (K × V)
  | [], key, val => [(key, val)]
  | (k, v) :: rest, key, val =>
      if k = key then (key, val) :: rest else (k, v) :: insertA rest key val

/-- The keys of an association list. -/
def keysA {K V : Type} (m : List (K × V)) : List K := m.map Prod.fst

/-! ## Data model (`pudlib::server`, `pudlib::manager::data`) -/

/-- `pudlib::server::Command`: `{ cmd: String }`. -/
structure Command where
  cmd : String
  deriving DecidableEq, Repr

/-- `pudlib::manager::data::JobDoc`: archived job record returned by queries. -/
structure JobDoc where
  startTime : Nat
  endTime : Nat
  stdout : List String
  stderr : List String
  status : Int
  deriving DecidableEq, Repr

/-- A worker registry entry as the router sees it (`puds::worker::Worker`):
the outbound address is irrelevant to routing decisions, ip and name are kept. -/
structure WorkerEntry where
  ip : String
  name : String
  deriving DecidableEq, Repr

/-! ## Server configuration (`puds::model::config::Config`, scheduler-relevant part) -/

/-- Worker ids; `Uuid` is opaque to the logic, a `Nat` suffices. -/
abbrev Uuid := Nat

/-- `puds::model::config::Config` restricted to the fields the router handlers
read: the default command table, the per-worker override tables, and the
per-worker schedule lists (`Schedules::take` unwraps to the plain list). -/
structure Config where
  defaultCmds : List (String × Command)
  overrides : List (String × List (String × Command))
  schedules : List (String × List Nat)
  deriving Repr

/-! ## Router handler for `WorkerSessionToServer::Initialize` (`puds::server::mod.rs`)

```rust
let mut commands = self.config.default().clone();
if let Some(overrides) = self.config.overrides().get(&name) {
    for (name, cmd) in overrides {
        let cmd_c = cmd.clone();
        *commands.entry(name.clone()).or_insert_with(|| cmd.clone()) = cmd_c;
    }
}
```
-/

/-- The override-merge loop: start from the configured defaults, and for each
`(name, cmd)` binding of `overrides[w]` (when present) write `cmd` over the
entry for `name`, inserting it if absent. -/
def effectiveCommands (cfg : Config) (workerName : String) : List (String × Command) :=
  match lookupA cfg.overrides workerName with
  | some ovr => ovr.foldl (fun m kv => insertA m kv.1 kv.2) cfg.defaultCmds
  | none => cfg.defaultCmds

/-- The schedules part of the same handler:
`schedules.remove(&name).map(Schedules::take).unwrap_or_default()`. -/
def effectiveSchedules (cfg : Config) (workerName : String) : List Nat :=
  (lookupA cfg.schedules workerName).getD []

/-- The message the router sends directly to worker `id` when handling
`WorkerSessionToServer::Initialize{id, name}`:
`ServerToWorkerClient::Initialize(commands, schedule)`. -/
def handleWorkerInitialize (cfg : Config) (id : Uuid) (name : String) :
    Uuid × (List (String × Command) × List Nat) :=
  (id, (effectiveCommands cfg name, effectiveSchedules cfg name))

/-! ## Router handler for `ManagerSessionToServer::Query` (`puds::server::mod.rs`) -/

/-- `ServerToManagerClient::QueryReturn` frames, as built by the Query arm. -/
structure QueryReturn where
  stdout : List String
  stderr : List String
  status : Int
  startTime : Nat
  endTime : Nat
  done : Bool
  deriving DecidableEq, Repr

/-- `ManagerSessionToServer::Query{id, output}` handler: empty output yields a
single empty frame with `done = true`; otherwise one frame per job document,
`done` exactly on the last index.  `now` stands for `OffsetDateTime::now_utc()`
used for the empty frame's timestamps. -/
def handleQuery (now : Nat) (output : List JobDoc) : List QueryReturn :=
  if output.isEmpty then
    [{ stdout := [], stderr := [], status := 0,
       startTime := now, endTime := now, done := true }]
  else
    output.enum.map fun (idx, jobDoc) =>
      { stdout := jobDoc.stdout, stderr := jobDoc.stderr, status := jobDoc.status,
        startTime := jobDoc.startTime, endTime := jobDoc.endTime,
        done := idx = output.length - 1 }

/-! ## Router handler for `ManagerSessionToServer::Reload` (`puds::server::mod.rs`)

```rust
if let Ok(config) = reload::<TomlConfig, Config>(path.clone(), *quiet, *verbose) {
    self.config = config;
}
self.direct_manager_message(ServerToManagerClient::Reload(true), &id);
self.broadcast_workers_message(&ServerToWorkerClient::Reload, &None);
```
-/

/-- Messages the Reload arm can emit, tagged by addressee. -/
inductive ReloadMsg where
  | toManager (id : Uuid) (ok : Bool)
  | toWorker (id : Uuid)
  deriving DecidableEq, Repr

/-- Modelled from the spec: `pudlib::reload` (the pudlib crate root is not in
the source tree) rereads the configuration file from the startup
`(path, quiet, verbose)` and either produces a fresh `Config` or fails; its
outcome is abstracted as an `Option Config` argument. -/
def reloadOutcome (result : Option Config) : Option Config := result

/-- The Reload handler over the router state: on a successful reread the config
is replaced, on failure it is kept; in both cases `Reload(true)` goes to the
requesting manager (if registered, per `direct_manager_message`) and `Reload`
is broadcast to every registered worker. -/
def handleReload (cfg : Config) (managers : List Uuid) (workers : List (Uuid × WorkerEntry))
    (requester : Uuid) (result : Option Config) : Config × List ReloadMsg :=
  let newCfg := (reloadOutcome result).getD cfg
  let managerMsgs := if requester ∈ managers then [ReloadMsg.toManager requester true] else []
  (newCfg, managerMsgs ++ (keysA workers).map ReloadMsg.toWorker)

/-! ## Calendar parser (`pudlib::schedule::{mod, dow, hms, ymd}`) -/

/-- `pudlib::error::Error` variants reachable from the schedule parser. -/
inductive PErr where
  | invalidCalendar
  | invalidDate
  | invalidTime
  | invalidRange
  | invalidDow
  | noValidCaptures
  | invalidFirstCapture
  | invalidSecondCapture
  | intParse
  deriving DecidableEq, Repr

/-- Digit run to its numeric value. -/
def digitsVal (cs : List Char) : Nat :=
  cs.foldl (fun acc c => acc * 10 + (c.toNat - '0'.toNat)) 0

/-- `str::parse::<u8>`: optional leading `+`, then one or more digits, value at
most 255; anything else is a parse error. -/
def parseU8 (cs : List Char) : Except PErr Nat :=
  let ds := match cs with | '+' :: rest => rest | _ => cs
  if ds ≠ [] ∧ ds.all Char.isDigit then
    if digitsVal ds ≤ 255 then .ok (digitsVal ds) else .error .intParse
  else .error .intParse

/-- `str::parse::<usize>` (64-bit bound). -/
def parseUsize (cs : List Char) : Except PErr Nat :=
  let ds := match cs with | '+' :: rest => rest | _ => cs
  if ds ≠ [] ∧ ds.all Char.isDigit then
    if digitsVal ds < 2 ^ 64 then .ok (digitsVal ds) else .error .intParse
  else .error .intParse

/-- `str::parse::<i32>`: optional sign, digits, 32-bit signed bounds. -/
def parseI32 (cs : List Char) : Except PErr Int :=
  let signed : Bool × List Char :=
    match cs with
    | '+' :: rest => (false, rest)
    | '-' :: rest => (true, rest)
    | _ => (false, cs)
  let ds := signed.2
  if ds ≠ [] ∧ ds.all Char.isDigit then
    let v : Int := (digitsVal ds : Int)
    let v := if signed.1 then -v else v
    if -2147483648 ≤ v ∧ v ≤ 2147483647 then .ok v else .error .intParse
  else .error .intParse

/-! ### The regular expressions

`RANGE_RE = (\d{1,2})\.\.(\d{1,2})` and
`REP_RE = (\d{1,2})(\.\.(\d{1,2}))?/(\d{1,2})` and
`DOW_RANGE_RE = ([a-zA-Z]{3,})\.\.([a-zA-Z]{3,})`, all unanchored: the
functions below implement the leftmost-first match with greedy quantifiers and
backtracking, returning the capture groups. -/

/-- Greedy `(\d{1,2})` capture at the head of the list (two digits preferred),
with the remaining input; no backtracking is needed when nothing follows. -/
def twoDigitsAt : List Char → Option (List Char)
  | a :: b :: _ => if a.isDigit then some (if b.isDigit then [a, b] else [a]) else none
  | [a] => if a.isDigit then some [a] else none
  | [] => none

/-- After a candidate first capture: require `..`, then the greedy second
digit capture. -/
def dotsThenDigits (g1 : List Char) : List Char → Option (List Char × List Char)
  | '.' :: '.' :: rest => (twoDigitsAt rest).map (fun g2 => (g1, g2))
  | _ => none

/-- `RANGE_RE` match attempt anchored at the current position: first capture
tries two digits then backtracks to one. -/
def rangeAttemptAt : List Char → Option (List Char × List Char)
  | a :: rest =>
    if a.isDigit then
      match rest with
      | b :: rest2 =>
        if b.isDigit then
          match dotsThenDigits [a, b] rest2 with
          | some r => some r
          | none => dotsThenDigits [a] (b :: rest2)
        else dotsThenDigits [a] (b :: rest2)
      | [] => none
    else none
  | [] => none

/-- `RANGE_RE` leftmost match over the whole input. -/
def rangeFind : List Char → Option (List Char × List Char)
  | [] => none
  | c :: rest =>
    match rangeAttemptAt (c :: rest) with
    | some r => some r
    | none => rangeFind rest

/-- `/` followed by the greedy final digit capture of `REP_RE`. -/
def slashDigits : List Char → Option (List Char)
  | '/' :: rest => twoDigitsAt rest
  | _ => none

/-- The `(\.\.(\d{1,2}))?/(\d{1,2})` tail of `REP_RE`: prefer the optional
range part (greedy inner capture with backtracking), fall back to absent. -/
def repTail (cs : List Char) : Option (Option (List Char) × List Char) :=
  let absent := (slashDigits cs).map (fun g4 => ((none : Option (List Char)), g4))
  match cs with
  | '.' :: '.' :: a :: rest =>
    if a.isDigit then
      match rest with
      | b :: rest2 =>
        if b.isDigit then
          match slashDigits rest2 with
          | some g4 => some (some [a, b], g4)
          | none =>
            match slashDigits (b :: rest2) with
            | some g4 => some (some [a], g4)
            | none => absent
        else
          match slashDigits (b :: rest2) with
          | some g4 => some (some [a], g4)
          | none => absent
      | [] => absent
    else absent
  | _ => absent

/-- `REP_RE` match attempt anchored at the current position. -/
def repAttemptAt : List Char → Option (List Char × Option (List Char) × List Char)
  | a :: rest =>
    if a.isDigit then
      match rest with
      | b :: rest2 =>
        if b.isDigit then
          match repTail rest2 with
          | some (g3, g4) => some ([a, b], g3, g4)
          | none => (repTail (b :: rest2)).map (fun p => ([a], p.1, p.2))
        else (repTail (b :: rest2)).map (fun p => ([a], p.1, p.2))
      | [] => none
    else none
  | [] => none

/-- `REP_RE` leftmost match over the whole input. -/
def repFind : List Char → Option (List Char × Option (List Char) × List Char)
  | [] => none
  | c :: rest =>
    match repAttemptAt (c :: rest) with
    | some r => some r
    | none => repFind rest

/-- Maximal run of ASCII letters at the head, with the remaining input. -/
def alphaRun : List Char → List Char × List Char
  | [] => ([], [])
  | c :: rest =>
    if c.isAlpha then
      let (run, rest2) := alphaRun rest
      (c :: run, rest2)
    else ([], c :: rest)

/-- `DOW_RANGE_RE` match attempt anchored at the current position: since the
letter runs are maximal, the greedy `{3,}` captures are exactly the runs. -/
def dowRangeAttemptAt (cs : List Char) : Option (List Char × List Char) :=
  let (r1, rest1) := alphaRun cs
  if 3 ≤ r1.length then
    match rest1 with
    | '.' :: '.' :: rest2 =>
      let (r2, _) := alphaRun rest2
      if 3 ≤ r2.length then some (r1, r2) else none
    | _ => none
  else none

/-- `DOW_RANGE_RE` leftmost match over the whole input. -/
def dowRangeFind : List Char → Option (List Char × List Char)
  | [] => none
  | c :: rest =>
    match dowRangeAttemptAt (c :: rest) with
    | some r => some r
    | none => dowRangeFind rest

/-! ### String splitting (`str::split`, `str::split_whitespace`) -/

/-- `str::split(sep)`: splits on every separator, keeping empty pieces. -/
def splitChar (sep : Char) : List Char → List (List Char)
  | [] => [[]]
  | c :: rest =>
    if c = sep then [] :: splitChar sep rest
    else
      match splitChar sep rest with
      | piece :: pieces => (c :: piece) :: pieces
      | [] => [[c]]

/-- Split at every character satisfying the predicate, keeping empty pieces. -/
def splitPred (p : Char → Bool) : List Char → List (List Char)
  | [] => [[]]
  | c :: rest =>
    if p c then [] :: splitPred p rest
    else
      match splitPred p rest with
      | piece :: pieces => (c :: piece) :: pieces
      | [] => [[c]]

/-- `str::split_whitespace`: non-empty runs between whitespace. -/
def splitWs (cs : List Char) : List (List Char) :=
  (splitPred Char.isWhitespace cs).filter (· ≠ [])

/-! ### Field representations -/

/-- The common shape of `Month`, `Day`, `Hour`, `Minute`, `Second` and
`DayOfWeek`: every value, or an explicit value set. -/
inductive FieldSpec where
  | all
  | vals (vs : List Nat)
  deriving DecidableEq, Repr

/-- `matches` for the value-set fields (`Vec::contains`). -/
def FieldSpec.fmatches : FieldSpec → Nat → Bool
  | .all, _ => true
  | .vals vs, given => vs.contains given

/-- `pudlib::schedule::ymd::Year`. -/
inductive YearSpec where
  | all
  | range (lo hi : Int)
  | repetition (start : Int) (stop : Option Int) (rep : Nat)
  | exact (y : Int)
  deriving DecidableEq, Repr

/-- `Year::matches`: range bounds are inclusive; a repetition is the stepped
sequence `start, start+rep, …` up to `stop` (9999 when absent).  (`step_by(0)`
panics in Rust; the parser never builds a repetition, modelled as no match.) -/
def YearSpec.ymatches : YearSpec → Int → Bool
  | .all, _ => true
  | .range lo hi, given => decide (lo ≤ given ∧ given ≤ hi)
  | .repetition start stop rep, given =>
    let hi := stop.getD 9999
    if rep = 0 then false
    else decide (start ≤ given ∧ given ≤ hi ∧ (given - start) % (rep : Int) = 0)
  | .exact y, given => decide (y = given)

/-- `time::Weekday`. -/
inductive Weekday where
  | monday | tuesday | wednesday | thursday | friday | saturday | sunday
  deriving DecidableEq, Repr

/-- The `u8` encoding used in `DayOfWeek::matches`: Sunday = 0 … Saturday = 6. -/
def weekdayNum : Weekday → Nat
  | .monday => 1
  | .tuesday => 2
  | .wednesday => 3
  | .thursday => 4
  | .friday => 5
  | .saturday => 6
  | .sunday => 0

/-- `DayOfWeek::matches`. -/
def dowMatches (spec : FieldSpec) (given : Weekday) : Bool :=
  spec.fmatches (weekdayNum given)

/-- `pudlib::schedule::Realtime`: the seven-field matcher. -/
structure Realtime where
  dayOfWeek : FieldSpec
  year : YearSpec
  month : FieldSpec
  day : FieldSpec
  hour : FieldSpec
  minute : FieldSpec
  second : FieldSpec
  deriving DecidableEq, Repr

/-- The component reads `Realtime::should_run` performs on
`OffsetDateTime::now_utc()`. -/
structure Instant where
  weekday : Weekday
  year : Int
  month : Nat
  day : Nat
  hour : Nat
  minute : Nat
  second : Nat

/-- `Realtime::should_run`: conjunction of the seven field matches. -/
def Realtime.shouldRun (rt : Realtime) (now : Instant) : Bool :=
  dowMatches rt.dayOfWeek now.weekday
    && rt.year.ymatches now.year
    && rt.month.fmatches now.month
    && rt.day.fmatches now.day
    && rt.hour.fmatches now.hour
    && rt.minute.fmatches now.minute
    && rt.second.fmatches now.second

/-! ### Value-list parsing -/

/-- `(a..=b).collect::<Vec<u8>>()` (empty when `b < a`; only reached with
`a ≤ b`). -/
def rangeList (a b : Nat) : List Nat := List.range' a (b + 1 - a)

/-- `(a..).step_by(rep)` restricted to `[a, a+len)`: the stepped collection
used by `parse_repetition`.  (`step_by(0)` panics in Rust; never reached from
parses settled here, modelled as empty.) -/
def stepBy (a len rep : Nat) : List Nat :=
  if rep = 0 then []
  else (List.range ((len + rep - 1) / rep)).map (fun k => a + rep * k)

/-- Insert into a sorted list. -/
def sortedInsert (x : Nat) : List Nat → List Nat
  | [] => [x]
  | y :: rest => if x ≤ y then x :: y :: rest else y :: sortedInsert x rest

/-- `collect::<HashSet<_>>().into_iter().collect::<Vec<_>>()` followed by
`sort_unstable()`: the sorted deduplicated value list. -/
def dedupSort (l : List Nat) : List Nat :=
  l.eraseDups.foldr sortedInsert []

/-- `parse_value`: a single `u8`. -/
def parseValue (cs : List Char) : Except PErr (List Nat) :=
  (parseU8 cs).map (fun v => [v])

/-- The bounds check of `parse_range`:
`second < first || (one_based && first == 0) ||
 ((one_based && second > max) || (!one_based && second >= max))`
yields `InvalidRange`, otherwise the inclusive range is collected. -/
def rangeCheck (first second max : Nat) (oneBased : Bool) : Except PErr (List Nat) :=
  if second < first ∨ (oneBased = true ∧ first = 0) ∨
      ((oneBased = true ∧ max < second) ∨ (oneBased = false ∧ max ≤ second)) then
    .error .invalidRange
  else .ok (rangeList first second)

/-- `parse_range`. -/
def parseRange (cs : List Char) (max : Nat) (oneBased : Bool) : Except PErr (List Nat) :=
  match rangeFind cs with
  | none => .error .noValidCaptures
  | some (g1, g2) => do
    let first ← parseU8 g1
    let second ← parseU8 g2
    rangeCheck first second max oneBased

/-- `parse_repetition` (the capture count is statically 5, so the
`InvalidTime` arm is unreachable). -/
def parseRepetition (cs : List Char) (max : Nat) : Except PErr (List Nat) :=
  match repFind cs with
  | none => .error .noValidCaptures
  | some (g1, g3, g4) => do
    let start ← parseU8 g1
    let rep ← parseUsize g4
    match g3 with
    | some gEnd => do
      let stop ← parseU8 gEnd
      if stop < start ∨ max ≤ stop then .error .invalidRange
      else .ok (stepBy start (stop + 1 - start) rep)
    | none => .ok (stepBy start (max - start) rep)

/-- `parse_rep_range_val`: repetition, then range, then single value. -/
def parseRepRangeVal (cs : List Char) (max : Nat) (oneBased : Bool) : Except PErr (List Nat) :=
  if (repFind cs).isSome then parseRepetition cs max
  else if (rangeFind cs).isSome then parseRange cs max oneBased
  else parseValue cs

/-- `parse_time_chunk::<T>`: `*` is every value, `R` draws one random value in
the field's range at parse time (the draw is threaded in as `randVal`),
otherwise a comma list of repetitions/ranges/values collected into a sorted
set. -/
def parseTimeChunk (randVal : Nat) (cs : List Char) (max : Nat) (oneBased : Bool) :
    Except PErr FieldSpec :=
  if cs = ['*'] then .ok .all
  else if cs = ['R'] then .ok (.vals [randVal])
  else do
    let vss ← (splitChar ',' cs).mapM (parseRepRangeVal · max oneBased)
    .ok (.vals (dedupSort vss.flatten))

/-- `parse_hms`: exactly three `:`-separated chunks, zero-based with maxima
24/60/60. -/
def parseHms (rh rm rs : Nat) (cs : List Char) :
    Except PErr (FieldSpec × FieldSpec × FieldSpec) :=
  match splitChar ':' cs with
  | [h, m, s] => do
    let hour ← parseTimeChunk rh h 24 false
    let minute ← parseTimeChunk rm m 60 false
    let second ← parseTimeChunk rs s 60 false
    .ok (hour, minute, second)
  | _ => .error .invalidTime

/-- `parse_year`: `*`, a range (no bounds validation), or a single year. -/
def parseYear (cs : List Char) : Except PErr YearSpec :=
  if cs = ['*'] then .ok .all
  else
    match rangeFind cs with
    | some (g1, g2) => do
      let first ← parseI32 g1
      let second ← parseI32 g2
      .ok (.range first second)
    | none => do
      let y ← parseI32 cs
      .ok (.exact y)

/-- `parse_date`: exactly three `-`-separated chunks; month and day are
one-based with maxima 12/31. -/
def parseDate (rmo rd : Nat) (cs : List Char) :
    Except PErr (YearSpec × FieldSpec × FieldSpec) :=
  match splitChar '-' cs with
  | [y, mo, d] => do
    let year ← parseYear y
    let month ← parseTimeChunk rmo mo 12 true
    let day ← parseTimeChunk rd d 31 true
    .ok (year, month, day)
  | _ => .error .invalidDate

/-- `parse_dow`: case-insensitive three-letter or full weekday names,
Sunday = 0 … Saturday = 6. -/
def parseDow (cs : List Char) : Except PErr Nat :=
  let l := cs.map Char.toLower
  if l = "sun".data ∨ l = "sunday".data then .ok 0
  else if l = "mon".data ∨ l = "monday".data then .ok 1
  else if l = "tue".data ∨ l = "tuesday".data then .ok 2
  else if l = "wed".data ∨ l = "wednesday".data then .ok 3
  else if l = "thu".data ∨ l = "thursday".data then .ok 4
  else if l = "fri".data ∨ l = "friday".data then .ok 5
  else if l = "sat".data ∨ l = "saturday".data then .ok 6
  else .error .invalidDow

/-- `parse_dow_range`: a descending range is `InvalidRange`. -/
def parseDowRange (cs : List Char) : Except PErr (List Nat) :=
  match dowRangeFind cs with
  | none => .error .noValidCaptures
  | some (g1, g2) => do
    let first ← parseDow g1
    let second ← parseDow g2
    if second < first then .error .invalidRange else .ok (rangeList first second)

/-- `parse_range_or_dow`. -/
def parseRangeOrDow (cs : List Char) : Except PErr (List Nat) :=
  if (dowRangeFind cs).isSome then parseDowRange cs
  else (parseDow cs).map (fun x => [x])

/-- `parse_day_of_week`: `*` or a comma list of names/ranges collected into a
sorted set. -/
def parseDayOfWeek (cs : List Char) : Except PErr FieldSpec :=
  if cs = ['*'] then .ok .all
  else do
    let vss ← (splitChar ',' cs).mapM parseRangeOrDow
    .ok (.vals (dedupSort vss.flatten))

/-! ### `parse_calendar` -/

/-- The random values the `R` specifier resolves to at parse time, one per
field that can carry `R` (`Month/Day/Hour/Minute/Second::rand`). -/
structure RandDraws where
  month : Nat
  day : Nat
  hour : Nat
  minute : Nat
  second : Nat

/-- The `Realtime::builder()` default: every field `All`. -/
def defaultRealtime : Realtime :=
  { dayOfWeek := .all, year := .all, month := .all, day := .all,
    hour := .all, minute := .all, second := .all }

/-- The `dow date hms` arm of `parse_calendar`. -/
def parseCalendarParts (draws : RandDraws) (dowPart datePart hmsPart : List Char) :
    Except PErr Realtime := do
  let dow ← parseDayOfWeek dowPart
  let (year, month, day) ← parseDate draws.month draws.day datePart
  let (hour, minute, second) ← parseHms draws.hour draws.minute draws.second hmsPart
  .ok { dayOfWeek := dow, year := year, month := month, day := day,
        hour := hour, minute := minute, second := second }

/-- `parse_calendar`: whitespace-split into 3 (`dow date hms`),
2 (`date hms`), or 1 part (a mnemonic, else `hms`). -/
def parseCalendar (draws : RandDraws) (calendar : String) : Except PErr Realtime :=
  match splitWs calendar.data with
  | [p0, p1, p2] => parseCalendarParts draws p0 p1 p2
  | [p0, p1] => parseCalendarParts draws ['*'] p0 p1
  | [p0] =>
    if p0 = "minutely".data then
      .ok ⟨.all, .all, .all, .all, .all, .all, .vals [0]⟩
    else if p0 = "hourly".data then
      .ok ⟨.all, .all, .all, .all, .all, .vals [0], .vals [0]⟩
    else if p0 = "daily".data then
      .ok ⟨.all, .all, .all, .all, .vals [0], .vals [0], .vals [0]⟩
    else if p0 = "weekly".data then
      .ok ⟨.vals [1], .all, .all, .all, .vals [0], .vals [0], .vals [0]⟩
    else if p0 = "monthly".data then
      .ok ⟨.all, .all, .all, .vals [1], .vals [0], .vals [0], .vals [0]⟩
    else if p0 = "quarterly".data then
      .ok ⟨.all, .all, .vals [1, 4, 7, 10], .vals [1], .vals [0], .vals [0], .vals [0]⟩
    else if p0 = "semiannually".data then
      .ok ⟨.all, .all, .vals [1, 7], .vals [1], .vals [0], .vals [0], .vals [0]⟩
    else if p0 = "yearly".data then
      .ok ⟨.all, .all, .vals [1], .vals [1], .vals [0], .vals [0], .vals [0]⟩
    else parseCalendarParts draws ['*'] ['*'] p0
  | _ => .error .invalidCalendar

/-! ## Worker client executor (`pudw::actor::run_cmd`)

`run_cmd` spawns `$SHELL -c <cmd>`, streams each stdout/stderr line as a
`Stdout`/`Stderr` message, and on natural exit sends `Status { id, code }`.
The message type is `pudlib::worker::message::WorkerClientToWorkerSession`,
whose full variant set is `Text | Stdout | Stderr | Status | Initialize`. -/

/-- `WorkerClientToWorkerSession` (pudlib): the complete variant set. -/
inductive WorkerMsg where
  | text (s : String)
  | stdout (id : Uuid) (line : String)
  | stderr (id : Uuid) (line : String)
  | status (id : Uuid) (code : Int)
  | initReq
  deriving DecidableEq, Repr

/-- Observable behaviour of one spawned child process: the lines it writes to
each pipe and `ExitStatus::code()` on termination (`none` when killed by a
signal). -/
structure ChildRun where
  stdoutLines : List String
  stderrLines : List String
  exitCode : Option Int

/-- The messages `run_cmd` emits for one invocation whose child terminates
naturally.  The stdout and stderr reader threads interleave arbitrarily
between themselves; the order fixed here (stdout lines, stderr lines, then
the status) is one admissible interleaving and is exact whenever one of the
two streams is empty.  `Status` is sent only when `code()` is `Some`. -/
def runCmdFrames (commandId : Uuid) (child : ChildRun) : List WorkerMsg :=
  child.stdoutLines.map (WorkerMsg.stdout commandId)
    ++ child.stderrLines.map (WorkerMsg.stderr commandId)
    ++ (match child.exitCode with
        | some code => [WorkerMsg.status commandId code]
        | none => [])

/-! ## Worker client actor state machine (`pudw::actor::Worker`) -/

/-- `pudlib::server::Schedule`, as installed on the worker. -/
inductive Schedule where
  | monotonic (onBootSec onUnitActiveSec : Nat) (cmds : List String)
  | realtime (onCalendar : String) (persistent : Bool) (cmds : List String)
  deriving DecidableEq, Repr

/-- `ServerToWorkerClient` (pudlib): `Status | Initialize | Reload |
Schedules(Uuid)`.  (`pudw`'s `handle_binary` matches only the first three;
the `Schedules` arm does not occur there.) -/
inductive ServerToWorker where
  | statusMsg (s : String)
  | initMsg (commands : List (String × Command)) (schedules : List Schedule)
  | reload
  | schedulesReq (id : Uuid)

/-- `Worker::store_realtime`: parse the calendar string and insert into the
`HashMap<Realtime, Vec<String>>` (replacing any binding with an equal key);
parse failures are logged and leave the table unchanged. -/
def storeRealtime (rtTable : List (Realtime × List String)) (draws : RandDraws)
    (onCalendar : String) (cmds : List String) : List (Realtime × List String) :=
  match parseCalendar draws onCalendar with
  | .ok rt => insertA rtTable rt cmds
  | .error _ => rtTable

/-- The `pudw::actor::Worker` fields the schedule machinery touches:
command table, schedule list, realtime table, pending future handles (with a
fresh-handle counter modelling `SpawnHandle` allocation), and the running
flag guarded by the mutex/condvar pair. -/
structure WorkerState where
  commands : List (String × Command)
  schedules : List Schedule
  rt : List (Realtime × List String)
  futHandles : List Nat
  nextHandle : Nat
  running : Bool
  deriving Repr

/-- Primitive effects of the worker handlers, in program order. -/
inductive WAction where
  | setRunningFalse
  | condvarBroadcast
  | cancelFuture (h : Nat)
  | clearRt
  | startQueueMonitor (h : Nat)
  | sendInitializeRequest
  | replaceTables
  | armMonotonic (h : Nat)
  | startRtMonitor (h : Nat)
  | setRunningTrue
  deriving DecidableEq, Repr

/-- The loop body of `Worker::start_schedules`: arm a `run_later` timer per
monotonic schedule (pushing its handle), store each realtime schedule, and
remember whether any realtime schedule was seen. -/
def startSchedulesLoop (draws : RandDraws) :
    List Schedule → WorkerState → Bool → WorkerState × List WAction × Bool
  | [], s, hasRt => (s, [], hasRt)
  | Schedule.monotonic _ _ _ :: rest, s, hasRt =>
    let h := s.nextHandle
    let s1 := { s with futHandles := s.futHandles ++ [h], nextHandle := s.nextHandle + 1 }
    let r := startSchedulesLoop draws rest s1 hasRt
    (r.1, WAction.armMonotonic h :: r.2.1, r.2.2)
  | Schedule.realtime onCalendar _ cmds :: rest, s, _hasRt =>
    let s1 := { s with rt := storeRealtime s.rt draws onCalendar cmds }
    startSchedulesLoop draws rest s1 true

/-- `Worker::start_schedules`: run the loop then, if any realtime schedule is
present, start the single 1 Hz realtime monitor (pushing its handle). -/
def startSchedules (draws : RandDraws) (s : WorkerState) : WorkerState × List WAction :=
  let r := startSchedulesLoop draws s.schedules s false
  if r.2.2 then
    let h := r.1.nextHandle
    ({ r.1 with futHandles := r.1.futHandles ++ [h], nextHandle := r.1.nextHandle + 1 },
     r.2.1 ++ [WAction.startRtMonitor h])
  else (r.1, r.2.1)

/-- `Worker::stop_schedules`: set the running flag false, broadcast on the
condvar, pop and cancel every pending future handle (last pushed first), and
clear the realtime table. -/
def stopSchedules (s : WorkerState) : WorkerState × List WAction :=
  ({ s with running := false, futHandles := [], rt := [] },
   WAction.setRunningFalse :: WAction.condvarBroadcast ::
     s.futHandles.reverse.map WAction.cancelFuture ++ [WAction.clearRt])

/-- `Worker::initialize`: start the queue monitor (pushing its handle) and
send the `Initialize` request to the server. -/
def workerInitialize (s : WorkerState) : WorkerState × List WAction :=
  let h := s.nextHandle
  ({ s with futHandles := s.futHandles ++ [h], nextHandle := s.nextHandle + 1 },
   [WAction.startQueueMonitor h, WAction.sendInitializeRequest])

/-- `Worker::handle_binary` on a deserialized `ServerToWorkerClient` message:

* `Initialize(commands, schedules)`: replace the command table and schedule
  list, start the new schedules, then set the running flag true — with no
  teardown of previously installed schedules or running commands;
* `Reload`: `stop_schedules` then re-request initialization;
* `Status`: log only. -/
def handleBinary (draws : RandDraws) (s : WorkerState) :
    ServerToWorker → WorkerState × List WAction
  | .statusMsg _ => (s, [])
  | .initMsg commands schedules =>
    let s1 := { s with commands := commands, schedules := schedules }
    let r := startSchedules draws s1
    ({ r.1 with running := true }, WAction.replaceTables :: r.2 ++ [WAction.setRunningTrue])
  | .reload =>
    let r1 := stopSchedules s
    let r2 := workerInitialize r1.1
    (r2.1, r1.2 ++ r2.2)
  | .schedulesReq _ => (s, [])

/-! ## Continuation framing (`handle_continuation` in all four peers) -/

/-- `actix_http::ws::Item`: one piece of a chunked message. -/
inductive ContItem where
  | firstText (bytes : List Nat)
  | firstBinary (bytes : List Nat)
  | middle (bytes : List Nat)
  | last (bytes : List Nat)
  deriving DecidableEq, Repr

/-- `handle_continuation` in the two *clients* (`pudw::actor`,
`pudcli::actor`): `FirstBinary`/`Continue` extend the buffer; `Last` extends
the buffer, passes **only the last chunk's bytes** to `handle_binary`, then
clears the buffer.  Returns the new buffer and the delivered payload. -/
def clientHandleContinuation (buf : List Nat) :
    ContItem → List Nat × Option (List Nat)
  | .firstText _ => (buf, none)
  | .firstBinary bytes => (buf ++ bytes, none)
  | .middle bytes => (buf ++ bytes, none)
  | .last bytes => ([], some bytes)

/-- `handle_continuation` in the two *server-side sessions*
(`puds::worker::session`, `puds::manager::session`): identical except that on
`Last` the whole accumulated buffer (`cont_bytes.split().freeze()`) is passed
to `handle_binary`. -/
def sessionHandleContinuation (buf : List Nat) :
    ContItem → List Nat × Option (List Nat)
  | .firstText _ => (buf, none)
  | .firstBinary bytes => (buf ++ bytes, none)
  | .middle bytes => (buf ++ bytes, none)
  | .last bytes => ([], some (buf ++ bytes))

/-- Run a continuation handler over a frame sequence from an empty buffer,
collecting the payloads delivered to `handle_binary`. -/
def runContinuation (step : List Nat → ContItem → List Nat × Option (List Nat))
    (items : List ContItem) : List (List Nat) :=
  (items.foldl
    (fun acc item =>
      let (buf, delivered) := step acc.1 item
      (buf, acc.2 ++ delivered.toList))
    (([] : List Nat), ([] : List (List Nat)))).2

/-! ## Heartbeat (`hb` in all four peers)

Every peer runs `ctx.run_interval(HEARTBEAT_INTERVAL = 5 s)`; each tick stops
the session when `Instant::now() - hb > CLIENT_TIMEOUT = 10 s`, where `hb` is
refreshed to `now` on inbound activity and starts at connection start.  Time
is modelled in milliseconds; tick `k` happens at `t = 5000·k`. -/

/-- The `hb` instant at time `t`: the latest inbound-frame time `≤ t`, or 0
(connection start) when none has arrived yet. -/
def hbLast (frames : List Nat) (t : Nat) : Nat :=
  (frames.filter (· ≤ t)).foldr max 0

/-- Whether the heartbeat check run at time `t` stops the session: `t` is a
5-second tick and the last inbound activity is more than 10 s old. -/
def hbFires (frames : List Nat) (t : Nat) : Bool :=
  decide (t ≠ 0 ∧ t % 5000 = 0 ∧ 10000 < t - hbLast frames t)

/-- `hbLast` for an infinite inbound-frame schedule `f` (strictly increasing,
so `f n ≥ n` and indices beyond `t` are irrelevant). -/
def hbLastInf (f : Nat → Nat) (t : Nat) : Nat :=
  (((List.range (t + 1)).map f).filter (· ≤ t)).foldr max 0

/-- The heartbeat check against an infinite inbound schedule. -/
def hbFiresInf (f : Nat → Nat) (t : Nat) : Bool :=
  decide (t ≠ 0 ∧ t % 5000 = 0 ∧ 10000 < t - hbLastInf f t)

/-! ## Helper lemmas -/

theorem lookupA_insertA {K V : Type} [DecidableEq K] (m : List (K × V)) (k key : K) (v : V) :
    lookupA (insertA m k v) key = if k = key then some v else lookupA m key := by
  induction m with
  | nil => simp [insertA, lookupA]
  | cons hd tl ih =>
    obtain ⟨k0, v0⟩ := hd
    by_cases h : k0 = k
    · subst h
      simp only [insertA, if_pos rfl, lookupA]
      by_cases h2 : k0 = key <;> simp [h2]
    · simp only [insertA, if_neg h, lookupA, ih]
      by_cases h2 : k0 = key
      · subst h2
        have hk : ¬k0 = k := h
        have : ¬k = k0 := fun e => hk e.symm
        simp [this]
      · simp [h2]

theorem lookupA_eq_none {K V : Type} [DecidableEq K] (m : List (K × V)) (k : K) :
    k ∉ keysA m → lookupA m k = none := by
  induction m with
  | nil => intro _; rfl
  | cons hd tl ih =>
    intro h
    obtain ⟨k0, v0⟩ := hd
    simp only [keysA, List.map_cons, List.mem_cons] at h
    push_neg at h
    simp only [lookupA]
    rw [if_neg (fun e => h.1 e.symm)]
    exact ih h.2

theorem lookupA_foldl_insertA {K V : Type} [DecidableEq K]
    (o : List (K × V)) (d : List (K × V)) (k : K) (hnd : (keysA o).Nodup) :
    lookupA (o.foldl (fun m kv => insertA m kv.1 kv.2) d) k =
      match lookupA o k with
      | some v => some v
      | none => lookupA d k := by
  induction o generalizing d with
  | nil => simp [lookupA]
  | cons hd tl ih =>
    obtain ⟨k0, v0⟩ := hd
    simp only [keysA, List.map_cons, List.nodup_cons] at hnd
    simp only [List.foldl_cons]
    rw [ih (insertA d k0 v0) hnd.2]
    by_cases h : k0 = k
    · subst h
      have htl : lookupA tl k0 = none := lookupA_eq_none tl k0 hnd.1
      simp [lookupA, htl, lookupA_insertA]
    · simp only [lookupA, h, if_false]
      cases lookupA tl k with
      | none => simp [lookupA_insertA, h]
      | some v => simp

/-! ## Claim theorems -/

/-- **C1.** For every worker name `w`, the command table the router computes
when handling `WorkerSessionToServer::Initialize{id, name=w}` and sends in
`ServerToWorkerClient::Initialize` equals the configured defaults map with
`overrides[w]` overlaid key by key (the override value winning whenever a key
occurs in both); when `overrides[w]` is absent the result equals the defaults
map verbatim. -/
theorem override_merge_initialize (cfg : Config) (id : Uuid) (w k : String)
    (hmap : ∀ ovr, lookupA cfg.overrides w = some ovr → (keysA ovr).Nodup) :
    (handleWorkerInitialize cfg id w).2.1 = effectiveCommands cfg w ∧
    (lookupA cfg.overrides w = none → effectiveCommands cfg w = cfg.defaultCmds) ∧
    (∀ ovr, lookupA cfg.overrides w = some ovr →
      (∀ v, lookupA ovr k = some v → lookupA (effectiveCommands cfg w) k = some v) ∧
      (lookupA ovr k = none →
        lookupA (effectiveCommands cfg w) k = lookupA cfg.defaultCmds k)) := by
  refine ⟨rfl, ?_, ?_⟩
  · intro hnone
    simp [effectiveCommands, hnone]
  · intro ovr hovr
    have hnd := hmap ovr hovr
    constructor
    · intro v hv
      simp only [effectiveCommands, hovr]
      rw [lookupA_foldl_insertA ovr cfg.defaultCmds k hnd, hv]
    · intro hnone
      simp only [effectiveCommands, hovr]
      rw [lookupA_foldl_insertA ovr cfg.defaultCmds k hnd, hnone]

/-- Witness for C1: defaults `ls ↦ "ls /"`, override `ls ↦ "ls /tmp"` for
worker `w1`; the merged table maps `ls` to the override, and a worker without
overrides gets the defaults verbatim. -/
theorem override_merge_initialize_w :
    (handleWorkerInitialize
        ⟨[("ls", ⟨"ls /"⟩)], [("w1", [("ls", ⟨"ls /tmp"⟩)])], []⟩ 3 "w1" ).2.1 =
      effectiveCommands ⟨[("ls", ⟨"ls /"⟩)], [("w1", [("ls", ⟨"ls /tmp"⟩)])], []⟩ "w1" ∧
    (lookupA [("w1", [("ls", (⟨"ls /tmp"⟩ : Command))])] "w1" = none →
      effectiveCommands ⟨[("ls", ⟨"ls /"⟩)], [("w1", [("ls", ⟨"ls /tmp"⟩)])], []⟩ "w1" =
        [("ls", ⟨"ls /"⟩)]) ∧
    (∀ ovr, lookupA [("w1", [("ls", (⟨"ls /tmp"⟩ : Command))])] "w1" = some ovr →
      (∀ v, lookupA ovr "ls" = some v →
        lookupA (effectiveCommands
          ⟨[("ls", ⟨"ls /"⟩)], [("w1", [("ls", ⟨"ls /tmp"⟩)])], []⟩ "w1") "ls" = some v) ∧
      (lookupA ovr "ls" = none →
        lookupA (effectiveCommands
          ⟨[("ls", ⟨"ls /"⟩)], [("w1", [("ls", ⟨"ls /tmp"⟩)])], []⟩ "w1") "ls" =
          lookupA [("ls", (⟨"ls /"⟩ : Command))] "ls")) :=
  override_merge_initialize
    ⟨[("ls", ⟨"ls /"⟩)], [("w1", [("ls", ⟨"ls /tmp"⟩)])], []⟩ 3 "w1" "ls"
    (by intro ovr hovr; simp [lookupA] at hovr; subst hovr; simp [keysA])

/-- **C9.** When the router handles `ManagerSessionToServer::Query{id, output}`:
if `output` is empty it sends the manager exactly one `QueryReturn` frame with
empty stdout and stderr vectors and `done = true`; otherwise it sends one
`QueryReturn` per element of `output`, in order, with `done = true` on the
last frame and `done = false` on all earlier frames. -/
theorem query_return_stream (now : Nat) (output : List JobDoc) :
    handleQuery now [] = [⟨[], [], 0, now, now, true⟩] ∧
    (output ≠ [] →
      (handleQuery now output).length = output.length ∧
      ∀ i, (handleQuery now output).get? i =
        (output.get? i).map (fun jobDoc =>
          ⟨jobDoc.stdout, jobDoc.stderr, jobDoc.status, jobDoc.startTime, jobDoc.endTime,
           decide (i = output.length - 1)⟩)) := by
  refine ⟨rfl, fun h => ⟨?_, ?_⟩⟩
  · simp [handleQuery, h]
  · intro i
    have hne : output.isEmpty = false := by
      cases output with
      | nil => exact absurd rfl h
      | cons a l => rfl
    simp only [handleQuery, hne, Bool.false_eq_true, if_false, List.get?_map,
      List.get?_enum]
    cases output.get? i <;> simp

/-- Witness for C9: a two-document query yields two frames, `done` exactly on
the second. -/
theorem query_return_stream_w :
    handleQuery 5 [] = [⟨[], [], 0, 5, 5, true⟩] ∧
    ([(⟨1, 2, ["o"], [], 0⟩ : JobDoc), ⟨3, 4, [], ["e"], 1⟩] ≠ [] →
      (handleQuery 5 [(⟨1, 2, ["o"], [], 0⟩ : JobDoc), ⟨3, 4, [], ["e"], 1⟩]).length = 2 ∧
      ∀ i, (handleQuery 5 [(⟨1, 2, ["o"], [], 0⟩ : JobDoc), ⟨3, 4, [], ["e"], 1⟩]).get? i =
        ([(⟨1, 2, ["o"], [], 0⟩ : JobDoc), ⟨3, 4, [], ["e"], 1⟩].get? i).map (fun jobDoc =>
          ⟨jobDoc.stdout, jobDoc.stderr, jobDoc.status, jobDoc.startTime, jobDoc.endTime,
           decide (i = 1)⟩)) :=
  query_return_stream 5 [⟨1, 2, ["o"], [], 0⟩, ⟨3, 4, [], ["e"], 1⟩]

/-- **C6.** When the router handles `ManagerSessionToServer::Reload(id)`, it
rereads the configuration from the startup path; on a successful read it
replaces the current config, and on a failed read the previously loaded config
is retained unchanged; in both cases it replies `Reload(true)` to the
requesting manager and broadcasts `Reload` to all registered workers.
(The reread itself, `pudlib::reload`, is modelled from the spec as an
`Option Config` outcome; see `reloadOutcome`.) -/
theorem reload_config_retention (cfg : Config) (managers : List Uuid)
    (workers : List (Uuid × WorkerEntry)) (requester : Uuid) (result : Option Config)
    (hreq : requester ∈ managers) :
    (∀ c, result = some c → (handleReload cfg managers workers requester result).1 = c) ∧
    (result = none → (handleReload cfg managers workers requester result).1 = cfg) ∧
    (handleReload cfg managers workers requester result).2 =
      ReloadMsg.toManager requester true :: (keysA workers).map ReloadMsg.toWorker := by
  refine ⟨?_, ?_, ?_⟩
  · intro c hc
    simp [handleReload, reloadOutcome, hc]
  · intro hc
    simp [handleReload, reloadOutcome, hc]
  · simp [handleReload, hreq]

/-- Witness for C6: a failed reread keeps the startup config and still sends
`Reload(true)` to manager 1 and `Reload` to worker 2. -/
theorem reload_config_retention_w :
    (∀ c, (none : Option Config) = some c →
      (handleReload ⟨[("ls", ⟨"ls /"⟩)], [], []⟩ [1] [(2, ⟨"ip", "w"⟩)] 1 none).1 = c) ∧
    ((none : Option Config) = none →
      (handleReload ⟨[("ls", ⟨"ls /"⟩)], [], []⟩ [1] [(2, ⟨"ip", "w"⟩)] 1 none).1 =
        ⟨[("ls", ⟨"ls /"⟩)], [], []⟩) ∧
    (handleReload ⟨[("ls", ⟨"ls /"⟩)], [], []⟩ [1] [(2, ⟨"ip", "w"⟩)] 1 none).2 =
      ReloadMsg.toManager 1 true :: (keysA [(2, (⟨"ip", "w"⟩ : WorkerEntry))]).map
        ReloadMsg.toWorker :=
  reload_config_retention ⟨[("ls", ⟨"ls /"⟩)], [], []⟩ [1] [(2, ⟨"ip", "w"⟩)] 1 none
    (by simp)

/-- **C10.** If an `Initialize` frame contains two `Realtime` schedules whose
calendar strings parse to equal matchers, the worker retains only the command
list of the schedule stored last: the realtime table is a map keyed by the
parsed matcher, so the earlier schedule's command list is silently replaced. -/
theorem realtime_last_wins (table : List (Realtime × List String))
    (d1 d2 : RandDraws) (c1 c2 : String) (r : Realtime) (cmds1 cmds2 : List String)
    (h1 : parseCalendar d1 c1 = .ok r) (h2 : parseCalendar d2 c2 = .ok r) :
    lookupA (storeRealtime (storeRealtime table d1 c1 cmds1) d2 c2 cmds2) r = some cmds2 := by
  simp [storeRealtime, h1, h2, lookupA_insertA]

/-- Witness for C10: two `minutely` schedules; only the second one's command
list survives in the realtime table. -/
theorem realtime_last_wins_w :
    lookupA (storeRealtime (storeRealtime [] ⟨0, 0, 0, 0, 0⟩ "minutely" ["a"])
        ⟨0, 0, 0, 0, 0⟩ "minutely" ["b"])
      ⟨.all, .all, .all, .all, .all, .all, .vals [0]⟩ = some ["b"] :=
  realtime_last_wins [] ⟨0, 0, 0, 0, 0⟩ ⟨0, 0, 0, 0, 0⟩ "minutely" "minutely"
    ⟨.all, .all, .all, .all, .all, .all, .vals [0]⟩ ["a"] ["b"] rfl rfl

/-- **C4** (code bug, evaluation at the failing input).  For the chunked
sequence `FirstBinary [1], Last [2]`, the worker-client and CLI-client
`handle_continuation` hand `handle_binary` only the last chunk `[2]` — not
the accumulated `[1, 2]` that the same code in the two server-side sessions
delivers — even though the clients dutifully extend and then clear their
continuation buffer. -/
theorem continuation_last_chunk_eval :
    runContinuation clientHandleContinuation
      [ContItem.firstBinary [1], ContItem.last [2]] = [[2]] ∧
    runContinuation sessionHandleContinuation
      [ContItem.firstBinary [1], ContItem.last [2]] = [[1, 2]] ∧
    ([2] : List Nat) ≠ [1, 2] := by
  refine ⟨rfl, rfl, by decide⟩

/-- **C2** (code bug, evaluation at the failing input).  A job whose child
prints one stdout line and exits naturally with code 0 makes `run_cmd` emit
exactly `[Stdout, Status]`: no `JobStart` frame precedes and no `JobEnd`
frame follows — indeed the wire enum `WorkerClientToWorkerSession` (modelled
by `WorkerMsg`) has no such variants at all, although the server-side worker
session matches on them to open and archive job documents. -/
theorem run_cmd_transcript_eval :
    runCmdFrames 7 ⟨["hi"], [], some 0⟩ = [WorkerMsg.stdout 7 "hi", WorkerMsg.status 7 0] ∧
    (runCmdFrames 7 ⟨["hi"], [], some 0⟩).head? = some (WorkerMsg.stdout 7 "hi") ∧
    (runCmdFrames 7 ⟨["hi"], [], some 0⟩).getLast? = some (WorkerMsg.status 7 0) := by
  refine ⟨rfl, rfl, rfl⟩

/-- **C3, counterexample.**  A worker with one installed schedule timer
(handle 5) and a running command receives `Initialize`: the handler replaces
the tables, arms the new (empty) schedule set and sets the running flag true,
but performs no teardown — the action trace contains no running-flag reset,
no condvar broadcast and no timer cancellation, the stale handle 5 stays
installed, and the running flag never goes false — refuting the claim that
`Initialize` first cancels timers and signals running commands. -/
theorem initialize_no_teardown_cex :
    (handleBinary ⟨0, 0, 0, 0, 0⟩ ⟨[], [], [], [5], 6, true⟩
        (.initMsg [("a", ⟨"echo hi"⟩)] [])).2 =
      [WAction.replaceTables, WAction.setRunningTrue] ∧
    (handleBinary ⟨0, 0, 0, 0, 0⟩ ⟨[], [], [], [5], 6, true⟩
        (.initMsg [("a", ⟨"echo hi"⟩)] [])).1.futHandles = [5] ∧
    (handleBinary ⟨0, 0, 0, 0, 0⟩ ⟨[], [], [], [5], 6, true⟩
        (.initMsg [("a", ⟨"echo hi"⟩)] [])).1.running = true := by
  refine ⟨rfl, rfl, rfl⟩

theorem startSchedulesLoop_spec (draws : RandDraws) (l : List Schedule) :
    ∀ (s : WorkerState) (b : Bool),
      (startSchedulesLoop draws l s b).1.commands = s.commands ∧
      (startSchedulesLoop draws l s b).1.schedules = s.schedules ∧
      (startSchedulesLoop draws l s b).1.running = s.running ∧
      (∃ ext, (startSchedulesLoop draws l s b).1.futHandles = s.futHandles ++ ext) ∧
      (∀ a ∈ (startSchedulesLoop draws l s b).2.1, ∃ hh, a = WAction.armMonotonic hh) := by
  induction l with
  | nil =>
    intro s b
    exact ⟨rfl, rfl, rfl, ⟨[], by simp [startSchedulesLoop]⟩, by simp [startSchedulesLoop]⟩
  | cons hd tl ih =>
    intro s b
    cases hd with
    | monotonic ob oa cmds =>
      obtain ⟨hc, hs, hr, ⟨ext, hf⟩, ha⟩ :=
        ih { s with futHandles := s.futHandles ++ [s.nextHandle],
                    nextHandle := s.nextHandle + 1 } b
      refine ⟨?_, ?_, ?_, ⟨s.nextHandle :: ext, ?_⟩, ?_⟩
      · simpa [startSchedulesLoop] using hc
      · simpa [startSchedulesLoop] using hs
      · simpa [startSchedulesLoop] using hr
      · simp only [startSchedulesLoop]
        rw [hf]
        simp
      · intro a hmem
        simp only [startSchedulesLoop, List.mem_cons] at hmem
        rcases hmem with h1 | h2
        · exact ⟨s.nextHandle, h1⟩
        · exact ha a h2
    | realtime oc p cmds =>
      obtain ⟨hc, hs, hr, ⟨ext, hf⟩, ha⟩ :=
        ih { s with rt := storeRealtime s.rt draws oc cmds } true
      exact ⟨hc, hs, hr, ⟨ext, hf⟩, ha⟩

/-- **C3, amended.**  The cancel-and-signal teardown happens when the worker
handles a `Reload` frame, not on `Initialize`: `Reload` sets the running flag
false with a condvar broadcast, cancels every pending schedule timer (last
armed first), clears the realtime table, then starts the queue monitor and
re-requests initialization; the subsequent `Initialize` handler replaces the
command table and schedule list, arms the new schedules and sets the running
flag true, performing no teardown of its own (its action trace contains no
flag reset, broadcast or cancellation, and previously installed handles are
retained). -/
theorem teardown_on_reload_not_initialize (draws : RandDraws) (s : WorkerState)
    (commands : List (String × Command)) (schedules : List Schedule) :
    (handleBinary draws s .reload).2 =
      WAction.setRunningFalse :: WAction.condvarBroadcast ::
        (s.futHandles.reverse.map WAction.cancelFuture ++
          [WAction.clearRt, WAction.startQueueMonitor s.nextHandle,
           WAction.sendInitializeRequest]) ∧
    (handleBinary draws s .reload).1.running = false ∧
    (handleBinary draws s .reload).1.rt = [] ∧
    (handleBinary draws s .reload).1.futHandles = [s.nextHandle] ∧
    (handleBinary draws s (.initMsg commands schedules)).1.commands = commands ∧
    (handleBinary draws s (.initMsg commands schedules)).1.schedules = schedules ∧
    (handleBinary draws s (.initMsg commands schedules)).1.running = true ∧
    (handleBinary draws s (.initMsg commands schedules)).2.head? =
      some WAction.replaceTables ∧
    (∀ a ∈ (handleBinary draws s (.initMsg commands schedules)).2,
      a ≠ WAction.setRunningFalse ∧ a ≠ WAction.condvarBroadcast ∧
      ∀ hh, a ≠ WAction.cancelFuture hh) ∧
    (∃ ext, (handleBinary draws s (.initMsg commands schedules)).1.futHandles =
      s.futHandles ++ ext) := by
  obtain ⟨hc, hs, hr, ⟨ext, hf⟩, ha⟩ :=
    startSchedulesLoop_spec draws schedules
      { s with commands := commands, schedules := schedules } false
  refine ⟨?_, rfl, rfl, ?_, ?_, ?_, rfl, ?_, ?_, ?_⟩
  · simp [handleBinary, stopSchedules, workerInitialize]
  · simp [handleBinary, stopSchedules, workerInitialize]
  · by_cases hrt :
      (startSchedulesLoop draws schedules
        { s with commands := commands, schedules := schedules } false).2.2 = true
    · simpa [handleBinary, startSchedules, hrt] using hc
    · simpa [handleBinary, startSchedules, hrt] using hc
  · by_cases hrt :
      (startSchedulesLoop draws schedules
        { s with commands := commands, schedules := schedules } false).2.2 = true
    · simpa [handleBinary, startSchedules, hrt] using hs
    · simpa [handleBinary, startSchedules, hrt] using hs
  · by_cases hrt :
      (startSchedulesLoop draws schedules
        { s with commands := commands, schedules := schedules } false).2.2 = true
    · simp [handleBinary, startSchedules, hrt]
    · simp [handleBinary, startSchedules, hrt]
  · intro a hmem
    have hshape : a = WAction.replaceTables ∨ (∃ hh, a = WAction.armMonotonic hh) ∨
        (∃ hh, a = WAction.startRtMonitor hh) ∨ a = WAction.setRunningTrue := by
      by_cases hrt :
        (startSchedulesLoop draws schedules
          { s with commands := commands, schedules := schedules } false).2.2 = true
      · simp [handleBinary, startSchedules, hrt] at hmem
        rcases hmem with h | h | h | h
        · exact Or.inl h
        · exact Or.inr (Or.inl (ha a h))
        · exact Or.inr (Or.inr (Or.inl ⟨_, h⟩))
        · exact Or.inr (Or.inr (Or.inr h))
      · simp [handleBinary, startSchedules, hrt] at hmem
        rcases hmem with h | h | h
        · exact Or.inl h
        · exact Or.inr (Or.inl (ha a h))
        · exact Or.inr (Or.inr (Or.inr h))
    rcases hshape with rfl | ⟨hh, rfl⟩ | ⟨hh, rfl⟩ | rfl <;>
      exact ⟨by simp, by simp, fun hh2 => by simp⟩
  · by_cases hrt :
      (startSchedulesLoop draws schedules
        { s with commands := commands, schedules := schedules } false).2.2 = true
    · refine ⟨ext ++ [(startSchedulesLoop draws schedules
        { s with commands := commands, schedules := schedules } false).1.nextHandle], ?_⟩
      simp only [handleBinary, startSchedules, hrt, if_true]
      rw [hf]
      simp
    · exact ⟨ext, by simpa [handleBinary, startSchedules, hrt] using hf⟩

theorem le_foldr_max (l : List Nat) (x : Nat) (hx : x ∈ l) : x ≤ l.foldr max 0 := by
  induction l with
  | nil => cases hx
  | cons a tl ih =>
    rcases List.mem_cons.mp hx with rfl | h
    · exact le_max_left _ _
    · exact le_trans (ih h) (le_max_right _ _)

theorem foldr_max_le (l : List Nat) (b : Nat) (hb : ∀ x ∈ l, x ≤ b) : l.foldr max 0 ≤ b := by
  induction l with
  | nil => simp
  | cons a tl ih =>
    simp only [List.foldr]
    exact max_le (hb a (List.mem_cons_self a tl))
      (ih fun x hx => hb x (List.mem_cons_of_mem a hx))

/-- **C5, counterexample.**  A session whose only inbound frame arrives 100 ms
after connect: its 10-second deadline is at 10100 ms, yet no heartbeat check
up to 11100 ms (deadline + 1 s) stops the session — the checks run only at
5-second ticks, and those at 5000 and 10000 see at most 9900 ms of silence.
The session is stopped only by the tick at 15000 ms, 4.9 s after the
deadline, refuting "closes within 1 s of that deadline". -/
theorem hb_close_within_one_second_cex :
    hbFires [100] 5000 = false ∧ hbFires [100] 10000 = false ∧
    (∀ t, t ≤ 11100 → hbFires [100] t = false) ∧
    hbFires [100] 15000 = true := by
  refine ⟨by decide, by decide, ?_, by decide⟩
  intro t ht
  by_contra hcontra
  rw [Bool.not_eq_false] at hcontra
  simp only [hbFires, decide_eq_true_eq] at hcontra
  obtain ⟨ht0, hmod, hsil⟩ := hcontra
  have : t = 5000 ∨ t = 10000 := by omega
  rcases this with rfl | rfl
  · have hb : hbLast [100] 5000 = 100 := by decide
    omega
  · have hb : hbLast [100] 10000 = 100 := by decide
    omega

/-- **C5, amended.**  For every session: once inbound frames stop (all frame
times at most `L`), some heartbeat check fires after the 10-second deadline
but within 5 s of it — at the next 5-second tick, not within 1 s; and if
inbound frames keep arriving at most 9 s apart forever (first frame within
9 s of connect), no heartbeat check ever fires, so the session stays open
indefinitely. -/
theorem hb_discipline_amended (frames : List Nat) (L : Nat)
    (hL : ∀ x ∈ frames, x ≤ L) (f : Nat → Nat) (hmono : StrictMono f)
    (h0 : f 0 ≤ 9000) (hgap : ∀ n, f (n + 1) ≤ f n + 9000) :
    (∃ t, hbFires frames t = true ∧ L + 10000 < t ∧ t ≤ L + 15000) ∧
    (∀ t, hbFiresInf f t = false) := by
  constructor
  · have hdm := Nat.div_add_mod (L + 10000) 5000
    have hmod : (L + 10000) % 5000 < 5000 := Nat.mod_lt _ (by norm_num)
    refine ⟨5000 * ((L + 10000) / 5000 + 1), ?_, by omega, by omega⟩
    rw [hbFires, decide_eq_true_eq]
    have hle : hbLast frames (5000 * ((L + 10000) / 5000 + 1)) ≤ L := by
      apply foldr_max_le
      intro x hx
      exact hL x (List.mem_of_mem_filter hx)
    refine ⟨by omega, Nat.mul_mod_right 5000 _, by omega⟩
  · intro t
    rw [hbFiresInf, decide_eq_false_iff_not]
    rintro ⟨ht0, hmod5, hgt⟩
    by_cases hcase : t < f 0
    · have h1 : t - hbLastInf f t ≤ t := Nat.sub_le _ _
      omega
    · push_neg at hcase
      have hPn : f (Nat.findGreatest (fun k => f k ≤ t) t) ≤ t :=
        @Nat.findGreatest_spec 0 (fun k => f k ≤ t) _ t (Nat.zero_le t) hcase
      have hnle : Nat.findGreatest (fun k => f k ≤ t) t ≤ t := Nat.findGreatest_le t
      have hnext : t < f (Nat.findGreatest (fun k => f k ≤ t) t + 1) := by
        by_cases hc2 : Nat.findGreatest (fun k => f k ≤ t) t + 1 ≤ t
        · by_contra hcon
          push_neg at hcon
          exact Nat.findGreatest_is_greatest (Nat.lt_succ_self _) hc2 hcon
        · have hfn1 : Nat.findGreatest (fun k => f k ≤ t) t + 1 ≤
              f (Nat.findGreatest (fun k => f k ≤ t) t + 1) := hmono.le_apply
          omega
      have hgap_n := hgap (Nat.findGreatest (fun k => f k ≤ t) t)
      have hlow : f (Nat.findGreatest (fun k => f k ≤ t) t) ≤ hbLastInf f t := by
        apply le_foldr_max
        apply List.mem_filter.mpr
        refine ⟨List.mem_map.mpr ⟨Nat.findGreatest (fun k => f k ≤ t) t,
          List.mem_range.mpr (by omega), rfl⟩, by simpa using hPn⟩
      omega

/-- Witness for C5 (amended): silence after a single frame at 100 ms is caught
by the tick at 15000 ms, and frames every 9 s keep the session open forever. -/
theorem hb_discipline_amended_w :
    (∃ t, hbFires [100] t = true ∧ 100 + 10000 < t ∧ t ≤ 100 + 15000) ∧
    (∀ t, hbFiresInf (fun n => 9000 * (n + 1)) t = false) :=
  hb_discipline_amended [100] 100 (by intro x hx; simp at hx; omega)
    (fun n => 9000 * (n + 1))
    (by intro a b hab; simp only; omega)
    (by norm_num) (by intro n; simp only; omega)

/-- **C7** (code bug, evaluation).  The matcher parsed from `*-*-* *:*:*`
matches every wall-clock time, and the matcher parsed from
`Mon..Fri *-*-* 09:00:00` matches exactly Monday through Friday at 09:00:00 —
but `parse_calendar("R:R:R")` returns `Err(InvalidDate)` instead of a matcher:
the single-part fallback supplies the date string `*`, which `parse_date`
rejects because it does not split into three `-`-separated fields, so no bare
`hms` calendar (the grammar's third alternative) ever parses. -/
theorem calendar_matchers_eval (d : RandDraws) (t : Instant) :
    parseCalendar d "*-*-* *:*:*" =
      .ok ⟨.all, .all, .all, .all, .all, .all, .all⟩ ∧
    Realtime.shouldRun ⟨.all, .all, .all, .all, .all, .all, .all⟩ t = true ∧
    parseCalendar d "Mon..Fri *-*-* 09:00:00" =
      .ok ⟨.vals [1, 2, 3, 4, 5], .all, .all, .all, .vals [9], .vals [0], .vals [0]⟩ ∧
    (Realtime.shouldRun
        ⟨.vals [1, 2, 3, 4, 5], .all, .all, .all, .vals [9], .vals [0], .vals [0]⟩ t = true ↔
      ((t.weekday = .monday ∨ t.weekday = .tuesday ∨ t.weekday = .wednesday ∨
          t.weekday = .thursday ∨ t.weekday = .friday) ∧
        t.hour = 9 ∧ t.minute = 0 ∧ t.second = 0)) ∧
    parseCalendar d "R:R:R" = .error .invalidDate := by
  refine ⟨rfl, rfl, rfl, ?_, rfl⟩
  obtain ⟨w, y, mo, dd, h, mi, se⟩ := t
  cases w <;>
    simp [Realtime.shouldRun, dowMatches, FieldSpec.fmatches, YearSpec.ymatches,
      weekdayNum, List.contains, and_assoc]

/-- **C8, counterexample.**  The year field is a calendar field, and the
descending numeric range `5..3` in it parses successfully (to
`Year::Range(5, 3)`), refuting "for every numeric range a..b in a calendar
field, parsing succeeds only if a ≤ b". -/
theorem year_range_no_validation_cex :
    parseCalendar ⟨0, 0, 0, 0, 0⟩ "5..3-*-* *:*:*" =
      .ok ⟨.all, .range 5 3, .all, .all, .all, .all, .all⟩ ∧
    parseYear "5..3".data = .ok (.range 5 3) := ⟨rfl, rfl⟩

/-- **C8, amended.**  For numeric ranges `a..b` in the month, day, hour,
minute and second fields (all parsed through `parse_range`), parsing succeeds
only if `a ≤ b`, and for the one-based fields month and day only if
additionally `a ≥ 1` and `b ≤ 12` (month) or `b ≤ 31` (day); every violation
of these bounds yields the `InvalidRange` error.  The year field, however,
performs no such validation: any `a..b` parses to `Year::Range(a, b)`. -/
theorem range_bounds_amended (first second mx : Nat) (oneBased : Bool) :
    ((∃ vs, rangeCheck first second mx oneBased = .ok vs) ↔
      ¬(second < first ∨ (oneBased = true ∧ first = 0) ∨
        ((oneBased = true ∧ mx < second) ∨ (oneBased = false ∧ mx ≤ second)))) ∧
    ((second < first ∨ (oneBased = true ∧ (first = 0 ∨ mx < second))) →
      rangeCheck first second mx oneBased = .error .invalidRange) ∧
    parseDate 0 0 "*-0..5-*".data = .error .invalidRange ∧
    parseDate 0 0 "*-3..13-*".data = .error .invalidRange ∧
    parseDate 0 0 "*-*-25..32".data = .error .invalidRange ∧
    parseHms 0 0 0 "17..9:0:0".data = .error .invalidRange ∧
    parseYear "5..3".data = .ok (.range 5 3) := by
  refine ⟨?_, ?_, rfl, rfl, rfl, rfl, rfl⟩
  · by_cases h : second < first ∨ (oneBased = true ∧ first = 0) ∨
        ((oneBased = true ∧ mx < second) ∨ (oneBased = false ∧ mx ≤ second))
    · simp [rangeCheck, h]
    · simp [rangeCheck, h]
  · intro h
    have hcond : second < first ∨ (oneBased = true ∧ first = 0) ∨
        ((oneBased = true ∧ mx < second) ∨ (oneBased = false ∧ mx ≤ second)) := by
      tauto
    simp [rangeCheck, hcond]

end Pud
